import Mathlib

/-!
Verification of the card-protocol core of the Agentfront NFC reader.

Byte strings are modelled as List Nat (one Nat per byte).  The single-DES
block primitive lives in an external crypto library, so all definitions
that use it are parameterized by a pair of functions
  desE desD : List Nat -> List Nat -> List Nat
(key, 8-byte block to block); GoodDes states the inverse/length laws the
library provides.  Everything built on top of the primitive (ISO 9797-1
padding, CBC chaining, the EDE2 construction, Retail MAC, key derivation,
the handshakes and the secure-messaging read loop) is translated directly
from the Python source in src/.
-/

namespace NFC

/-- Byte-wise xor of two byte strings, truncating to the shorter one,
as the Python generator expressions over zip do. -/
def listXor (a b : List Nat) : List Nat :=
  List.zipWith (fun x y => x ^^^ y) a b

/-- ISO 9797-1 method-2 padding, from BACAuthentication.pad_data in
src/readers/bac.py (identical to ZairyuCardReader._pad_data in
src/readers/zairyu.py): append 0x80 then zero bytes until the length is a
multiple of 8. -/
def pad_data (data : List Nat) : List Nat :=
  let p := data ++ [0x80]
  p ++ List.replicate ((8 - p.length % 8) % 8) 0

/-- Removal of ISO 9797-1 padding, from BACAuthentication.unpad_data in
src/readers/bac.py (identical to ZairyuCardReader._unpad_data): scan
trailing zero bytes; if the byte before them is 0x80 drop it and the
zeros, otherwise return the input unchanged. -/
def unpad_data (data : List Nat) : List Nat :=
  match data.reverse.dropWhile (fun b => decide (b = 0)) with
  | b :: rest => if b = 0x80 then rest.reverse else data
  | [] => data

/-- ZairyuCardReader._pad_data (src/readers/zairyu.py, lines 147-152):
textually the same algorithm as BAC pad_data. -/
def zairyu_pad_data (data : List Nat) : List Nat :=
  let p := data ++ [0x80]
  p ++ List.replicate ((8 - p.length % 8) % 8) 0

/-- ZairyuCardReader._unpad_data (src/readers/zairyu.py, lines 154-161):
textually the same algorithm as BAC unpad_data. -/
def zairyu_unpad_data (data : List Nat) : List Nat :=
  match data.reverse.dropWhile (fun b => decide (b = 0)) with
  | b :: rest => if b = 0x80 then rest.reverse else data
  | [] => data

end NFC

namespace NFC

/-- Fueled splitting of a byte string into 8-byte blocks, mirroring the
Python loops `for i in range(0, len(data), 8): block = data[i:i+8]`.  The
fuel is an upper bound on the number of blocks; toBlocks instantiates it
with the length of the data. -/
def toBlocksGo : Nat → List Nat → List (List Nat)
  | 0, _ => []
  | n + 1, data =>
    if data.isEmpty then []
    else data.take 8 :: toBlocksGo n (data.drop 8)

/-- Split a byte string into successive 8-byte blocks (the last block may
be short when the length is not a multiple of 8). -/
def toBlocks (data : List Nat) : List (List Nat) :=
  toBlocksGo data.length data

end NFC

namespace NFC

/-- CBC encryption over a list of plaintext blocks with block cipher e,
from ZairyuCardReader._tdes_encrypt: each block is xored with the
previous ciphertext block (initially the IV) and encrypted. -/
def cbc_encrypt_blocks (e : List Nat → List Nat) : List Nat → List (List Nat) → List (List Nat)
  | _, [] => []
  | prev, b :: bs =>
    let c := e (listXor b prev)
    c :: cbc_encrypt_blocks e c bs

/-- CBC decryption over a list of ciphertext blocks with block cipher
inverse d, from ZairyuCardReader._tdes_decrypt: each block is decrypted
and xored with the previous ciphertext block (initially the IV). -/
def cbc_decrypt_blocks (d : List Nat → List Nat) : List Nat → List (List Nat) → List (List Nat)
  | _, [] => []
  | prev, c :: cs => listXor (d c) prev :: cbc_decrypt_blocks d c cs

/-- Single-block 3DES-EDE2, from ZairyuCardReader._tdes_ede_block:
encrypt = E_k1 after D_k2 after E_k1, decrypt = D_k1 after E_k2 after
D_k1. -/
def tdes_ede_block (desE desD : List Nat → List Nat → List Nat)
    (k1 k2 : List Nat) (encrypt : Bool) (block : List Nat) : List Nat :=
  if encrypt then desE k1 (desD k2 (desE k1 block))
  else desD k1 (desE k2 (desD k1 block))

/-- 3DES-EDE2 CBC encryption with zero IV, from
ZairyuCardReader._tdes_encrypt (src/readers/zairyu.py, lines 201-220);
the pycryptodome DES3 CBC cipher used by BACAuthentication performs the
same computation for a 16-byte key. -/
def tdes_encrypt (desE desD : List Nat → List Nat → List Nat)
    (key data : List Nat) : List Nat :=
  let k1 := key.take 8
  let k2 := (key.drop 8).take 8
  (cbc_encrypt_blocks (tdes_ede_block desE desD k1 k2 true)
    (List.replicate 8 0) (toBlocks data)).flatten

/-- 3DES-EDE2 CBC decryption with zero IV, from
ZairyuCardReader._tdes_decrypt (src/readers/zairyu.py, lines 222-241). -/
def tdes_decrypt (desE desD : List Nat → List Nat → List Nat)
    (key data : List Nat) : List Nat :=
  let k1 := key.take 8
  let k2 := (key.drop 8).take 8
  (cbc_decrypt_blocks (tdes_ede_block desE desD k1 k2 false)
    (List.replicate 8 0) (toBlocks data)).flatten

/-- Retail MAC (ISO 9797-1 MAC Algorithm 3), from
BACAuthentication.compute_mac (src/readers/bac.py, lines 116-142),
identical to ZairyuCardReader._compute_retail_mac: CBC-MAC the padded
data under the first half-key, then decrypt the final block with the
second half-key and re-encrypt with the first. -/
def retail_mac (desE desD : List Nat → List Nat → List Nat)
    (key data : List Nat) : List Nat :=
  let padded := pad_data data
  let ka := key.take 8
  let kb := (key.drop 8).take 8
  let h := (toBlocks padded).foldl
    (fun h block => desE ka (listXor h block)) (List.replicate 8 0)
  desE ka (desD kb h)

/-- The laws the external single-DES primitive satisfies: it preserves
the 8-byte block length and encryption/decryption under the same key are
mutually inverse. -/
def GoodDes (desE desD : List Nat → List Nat → List Nat) : Prop :=
  ∀ k b, b.length = 8 →
    (desE k b).length = 8 ∧ (desD k b).length = 8 ∧
    desD k (desE k b) = b ∧ desE k (desD k b) = b

/-- The identity block cipher, used to instantiate GoodDes in concrete
evaluations. -/
def idCipher : List Nat → List Nat → List Nat := fun _ b => b

end NFC

namespace NFC

/-- Number of set bits, as Python bin(b).count of ones.  Fueled so that
it is structurally recursive; the fuel n itself is always sufficient. -/
def popcountGo : Nat → Nat → Nat
  | 0, _ => 0
  | f + 1, n => if n = 0 then 0 else n % 2 + popcountGo f (n / 2)

/-- Number of set bits of a natural number. -/
def popcount (n : Nat) : Nat := popcountGo n n

/-- Parity adjustment of one key byte, from the loops in
BACAuthentication.compute_key and ZairyuCardReader._compute_session_key:
if the popcount is even, flip the low bit. -/
def adjust_parity (b : Nat) : Nat :=
  if popcount b % 2 = 0 then b ^^^ 1 else b

/-- Counter bytes appended to the key seed, from
BACAuthentication.compute_key: 00000001 for ENC, 00000002 otherwise. -/
def key_counter (key_type : String) : List Nat :=
  if key_type = "ENC" then [0x00, 0x00, 0x00, 0x01] else [0x00, 0x00, 0x00, 0x02]

/-- BACAuthentication.compute_key (src/readers/bac.py, lines 60-79),
parameterized by the external SHA-1 function: hash seed plus counter,
take the first 16 bytes, adjust each byte to odd parity. -/
def compute_key (sha1 : List Nat → List Nat)
    (key_seed : List Nat) (key_type : String) : List Nat :=
  let d := key_seed ++ key_counter key_type
  let h := sha1 d
  (h.take 16).map adjust_parity

/-- ZairyuCardReader._compute_session_key (src/readers/zairyu.py,
lines 243-255): hash key material plus counter 00000001, take 16 bytes,
adjust parity. -/
def compute_session_key (sha1 : List Nat → List Nat)
    (key_material : List Nat) : List Nat :=
  let d := key_material ++ [0x00, 0x00, 0x00, 0x01]
  let h := sha1 d
  (h.take 16).map adjust_parity

/-- BACAuthentication.encrypt_data (src/readers/bac.py, lines 144-153):
pad, then 3DES-CBC encrypt with zero IV. -/
def encrypt_data (desE desD : List Nat → List Nat → List Nat)
    (key data : List Nat) : List Nat :=
  tdes_encrypt desE desD key (pad_data data)

/-- BACAuthentication.decrypt_data (src/readers/bac.py, lines 155-164):
3DES-CBC decrypt with zero IV, then unpad. -/
def decrypt_data (desE desD : List Nat → List Nat → List Nat)
    (key data : List Nat) : List Nat :=
  unpad_data (tdes_decrypt desE desD key data)

end NFC

namespace NFC

/-- The MRZ character table of BACAuthentication.calculate_check_digit
(src/readers/bac.py, line 31): digits, letters, then the filler.  The
value of a character is its index in this table. -/
def mrz_values : List Char := "0123456789ABCDEFGHIJKLMNOPQRSTUVWXYZ<".toList

/-- The cyclic MRZ weights 7, 3, 1. -/
def mrz_weights : List Nat := [7, 3, 1]

/-- BACAuthentication.calculate_check_digit (src/readers/bac.py,
lines 27-36): sum of character value times weight, modulo 10, rendered
as a digit character.  A character (upper-cased) found in the table is
valued by its index there; any other character counts 0. -/
def calculate_check_digit (data : List Char) : Char :=
  let total := data.enum.foldl
    (fun acc p =>
      let ch := p.2.toUpper
      let value := if ch ∈ mrz_values then mrz_values.indexOf ch else 0
      acc + value * mrz_weights.getD (p.1 % 3) 0)
    0
  Nat.digitChar (total % 10)

/-- BACAuthentication.build_mrz_info (src/readers/bac.py, lines 38-58):
document number truncated to 9 characters and right-padded with the
filler, each segment followed by its check digit. -/
def build_mrz_info (doc_number birth_date expiry_date : List Char) : List Char :=
  let doc_num_mrz := doc_number.take 9 ++
    List.replicate (9 - (doc_number.take 9).length) '<'
  let doc_check := calculate_check_digit doc_num_mrz
  let birth_check := calculate_check_digit birth_date
  let expiry_check := calculate_check_digit expiry_date
  doc_num_mrz ++ [doc_check] ++ birth_date ++ [birth_check] ++
    expiry_date ++ [expiry_check]

/-- Modelled from the spec and claim C2: the ICAO 9303 character value,
where digits value 0-9, letters value 10-35 and the filler < values 0. -/
def icao_char_value (c : Char) : Nat :=
  let ch := c.toUpper
  if '0' ≤ ch ∧ ch ≤ '9' then ch.toNat - 48
  else if 'A' ≤ ch ∧ ch ≤ 'Z' then ch.toNat - 55
  else 0

/-- Modelled from the spec and claim C2: the ICAO 9303 check digit with
weights 7, 3, 1 repeating and the filler valued 0. -/
def icao_check_digit (data : List Char) : Char :=
  let total := data.enum.foldl
    (fun acc p => acc + icao_char_value p.2 * mrz_weights.getD (p.1 % 3) 0)
    0
  Nat.digitChar (total % 10)

end NFC

namespace NFC

/-- OCRResultCache._make_key (src/bridge.py, lines 80-82): the card
number, or card number, colon, image hash when a hash is given. -/
def make_key (card_number image_hash : List Char) : List Char :=
  if image_hash.isEmpty then card_number else card_number ++ ':' :: image_hash

/-- OCRResultCache.get (src/bridge.py, lines 84-102) over an explicit
OrderedDict state (front of the list is the oldest position) and an
explicit current time: a hit on an entry older than the TTL deletes the
entry and reports absence; a fresh hit moves the entry to the end and
returns its value. -/
def cache_get {V : Type} (ttl now : Nat)
    (cache : List (List Char × Nat × V)) (card_number image_hash : List Char) :
    Option V × List (List Char × Nat × V) :=
  let key := make_key card_number image_hash
  match cache.find? (fun e => decide (e.1 = key)) with
  | none => (none, cache)
  | some e =>
    if ttl < now - e.2.1 then
      (none, cache.filter (fun x => decide (x.1 ≠ key)))
    else
      (some e.2.2, cache.filter (fun x => decide (x.1 ≠ key)) ++ [e])

/-- The eviction loop of OCRResultCache.set (src/bridge.py,
lines 108-112): while the cache holds at least max_size entries, delete
the entry at the front of the order.  Fueled; set passes enough fuel. -/
def evict_oldest {V : Type} (max_size : Nat) :
    Nat → List (List Char × Nat × V) → List (List Char × Nat × V)
  | 0, c => c
  | f + 1, c => if max_size ≤ c.length then evict_oldest max_size f c.tail else c

/-- OCRResultCache.set (src/bridge.py, lines 104-115): evict from the
front while at capacity, then store the value with the current time
under the key (in place when the key is present, appended at the end
otherwise, as OrderedDict assignment does). -/
def cache_set {V : Type} (max_size now : Nat)
    (cache : List (List Char × Nat × V)) (card_number image_hash : List Char)
    (result : V) : List (List Char × Nat × V) :=
  let key := make_key card_number image_hash
  let c1 := evict_oldest max_size (cache.length + 1) cache
  if c1.any (fun e => decide (e.1 = key)) then
    c1.map (fun e => if e.1 = key then (key, now, result) else e)
  else c1 ++ [(key, now, result)]

end NFC

namespace NFC

/-- A card connection: a deterministic response (data, sw1, sw2) for
each transmitted APDU. -/
abbrev Card : Type := List Nat → List Nat × Nat × Nat

/-- The VERIFY APDU built by MyNumberCardReader.verify_pin
(src/readers/mynumber.py, lines 78-79). -/
def verify_cmd (pin : List Char) : List Nat :=
  let pin_bytes := pin.map Char.toNat
  [0x00, 0x20, 0x00, 0x80, pin_bytes.length] ++ pin_bytes

/-- MyNumberCardReader.verify_pin (src/readers/mynumber.py,
lines 76-88): send VERIFY; SW1 0x90 is success, SW 0x63Cx failure with
the low nibble as remaining tries, SW 0x6984 locked (0 tries), anything
else failure with -1. -/
def verify_pin (card : Card) (pin : List Char) : Bool × Int :=
  let r := card (verify_cmd pin)
  let sw1 := r.2.1
  let sw2 := r.2.2
  if sw1 = 0x90 then (true, -1)
  else if sw1 = 0x63 ∧ sw2 &&& 0xC0 = 0xC0 then (false, Int.ofNat (sw2 &&& 0x0F))
  else if sw1 = 0x69 ∧ sw2 = 0x84 then (false, 0)
  else (false, -1)

end NFC

namespace NFC

/-- The GET CHALLENGE APDU of ZairyuCardReader.get_challenge
(src/readers/zairyu.py, line 129). -/
def get_challenge_cmd : List Nat := [0x00, 0x84, 0x00, 0x00, 0x08]

/-- The MUTUAL AUTHENTICATE APDU built in
ZairyuCardReader.mutual_authenticate (src/readers/zairyu.py,
lines 294-303): S = RND.IFD then RND.ICC then K.IFD, E_IFD its
unpadded 3DES-CBC encryption under Kenc, M_IFD the Retail MAC of E_IFD
under Kmac (= Kenc). -/
def ma_cmd (desE desD : List Nat → List Nat → List Nat)
    (sha1 : List Nat → List Nat) (card_number : List Nat)
    (rnd_icc rnd_ifd k_ifd : List Nat) : List Nat :=
  let k_enc := (sha1 card_number).take 16
  let k_mac := k_enc
  let s := rnd_ifd ++ rnd_icc ++ k_ifd
  let e_ifd := tdes_encrypt desE desD k_enc s
  let m_ifd := retail_mac desE desD k_mac e_ifd
  let cmd_data := e_ifd ++ m_ifd
  [0x00, 0x82, 0x00, 0x00, cmd_data.length] ++ cmd_data ++ [0x00]

/-- ZairyuCardReader.mutual_authenticate (src/readers/zairyu.py,
lines 269-357), with the random values RND.IFD and K.IFD and the old
ks_enc field as explicit inputs.  Returns none when _derive_auth_keys
raises (card number not 12 characters), otherwise (success flag, new
ks_enc field). -/
def mutual_authenticate (desE desD : List Nat → List Nat → List Nat)
    (sha1 : List Nat → List Nat) (card : Card) (card_number : List Nat)
    (rnd_ifd k_ifd : List Nat) (ks_enc : Option (List Nat)) :
    Option (Bool × Option (List Nat)) :=
  if card_number.length ≠ 12 then none
  else
    let k_enc := (sha1 card_number).take 16
    let k_mac := k_enc
    let ch := card get_challenge_cmd
    if ¬(ch.2.1 = 0x90 ∧ ch.1.length = 8) then some (false, ks_enc)
    else
      let rnd_icc := ch.1
      let cmd := ma_cmd desE desD sha1 card_number rnd_icc rnd_ifd k_ifd
      let r := card cmd
      let rdata := r.1
      if r.2.1 ≠ 0x90 then some (false, ks_enc)
      else if rdata.length ≠ 40 then some (false, ks_enc)
      else
        let e_icc := rdata.take 32
        let m_icc := (rdata.drop 32).take 8
        if retail_mac desE desD k_mac e_icc ≠ m_icc then some (false, ks_enc)
        else
          let decrypted := tdes_decrypt desE desD k_enc e_icc
          if decrypted.length ≠ 32 then some (false, ks_enc)
          else
            let rnd_icc_resp := decrypted.take 8
            let rnd_ifd_resp := (decrypted.drop 8).take 8
            let k_icc := (decrypted.drop 16).take 16
            if rnd_icc_resp ≠ rnd_icc then some (false, ks_enc)
            else if rnd_ifd_resp ≠ rnd_ifd then some (false, ks_enc)
            else
              let key_material := listXor k_ifd k_icc
              some (true, some (compute_session_key sha1 key_material))

end NFC

namespace NFC

/-- The secure-messaging READ BINARY APDU built in
ZairyuCardReader.read_binary_sm (src/readers/zairyu.py, lines 403-413). -/
def sm_read_cmd (ef_id offset chunk_size : Nat) : List Nat :=
  let p1 := if offset = 0 then 0x80 ||| ef_id else (offset >>> 8) &&& 0x7F
  let p2 := if offset = 0 then 0x00 else offset &&& 0xFF
  let sm_data := [0x96, 0x02, (chunk_size >>> 8) &&& 0xFF, chunk_size &&& 0xFF]
  [0x08, 0xB0, p1, p2, 0x00, 0x00, sm_data.length] ++ sm_data ++ [0x00, 0x00]

/-- The response-unwrapping part of ZairyuCardReader.read_binary_sm
(src/readers/zairyu.py, lines 425-453): reject short responses and a
wrong leading tag (none = the Python break), parse the BER length,
strip a leading 0x01 padding indicator, zero-pad the ciphertext to a
multiple of 8. -/
def sm_parse (data : List Nat) : Option (List Nat) :=
  if data.length < 4 then none
  else if data.getD 0 0 ≠ 0x86 then none
  else
    let t := data.getD 1 0
    let p : Nat × Nat :=
      if t = 0x82 then (((data.getD 2 0) <<< 8) ||| data.getD 3 0, 4)
      else if t = 0x81 then (data.getD 2 0, 3)
      else (t, 2)
    let enc_content := (data.drop p.2).take p.1
    let enc_data :=
      if 0 < enc_content.length ∧ enc_content.getD 0 0 = 0x01 then
        enc_content.drop 1
      else enc_content
    some (if enc_data.length % 8 ≠ 0 then
        enc_data ++ List.replicate (8 - enc_data.length % 8) 0
      else enc_data)

/-- Observable outcome of one read_binary_sm call: the returned value,
the APDUs transmitted, and the number of loop iterations executed. -/
structure SMReadOut where
  result : Option (List Nat)
  issued : List (List Nat)
  iters : Nat
deriving DecidableEq

/-- The final return of ZairyuCardReader.read_binary_sm: bytes when the
accumulator is nonempty, None otherwise. -/
def sm_finish (acc : List Nat) : Option (List Nat) :=
  if acc.isEmpty then none else some acc

/-- The while loop of ZairyuCardReader.read_binary_sm
(src/readers/zairyu.py, lines 402-465), fueled: none means the fuel ran
out (the loop would still be running), some gives the outcome.
read_binary_sm supplies fuel max_length + 1, which the termination
theorem shows is always enough. -/
def read_binary_sm_go (desE desD : List Nat → List Nat → List Nat)
    (ks : List Nat) (card : Card) (ef_id max_length : Nat) :
    Nat → Nat → List Nat → List (List Nat) → Nat → Option SMReadOut
  | 0, _, _, _, _ => none
  | fuel + 1, offset, acc, issued, n =>
    if offset < max_length then
      let chunk_size := min 256 (max_length - offset)
      let cmd := sm_read_cmd ef_id offset chunk_size
      let r := card cmd
      let issued2 := issued ++ [cmd]
      if r.2.1 ≠ 0x90 then
        if offset = 0 then some ⟨none, issued2, n + 1⟩
        else some ⟨sm_finish acc, issued2, n + 1⟩
      else
        match sm_parse r.1 with
        | none => some ⟨sm_finish acc, issued2, n + 1⟩
        | some enc_data =>
          let decrypted := unpad_data (tdes_decrypt desE desD ks enc_data)
          let acc2 := acc ++ decrypted
          if decrypted.length < chunk_size then
            some ⟨sm_finish acc2, issued2, n + 1⟩
          else
            read_binary_sm_go desE desD ks card ef_id max_length fuel
              (offset + decrypted.length) acc2 issued2 (n + 1)
    else some ⟨sm_finish acc, issued, n⟩

/-- ZairyuCardReader.read_binary_sm (src/readers/zairyu.py,
lines 391-465): fail fast (no APDU) when the session key is unset or
empty or the authenticated flag is false, otherwise run the loop. -/
def read_binary_sm (desE desD : List Nat → List Nat → List Nat)
    (ks_enc : Option (List Nat)) (authenticated : Bool) (card : Card)
    (ef_id max_length : Nat) : Option SMReadOut :=
  if (ks_enc.getD []).isEmpty || !authenticated then some ⟨none, [], 0⟩
  else
    read_binary_sm_go desE desD (ks_enc.getD []) card ef_id max_length
      (max_length + 1) 0 [] [] 0

end NFC

namespace NFC

/-- SELECT EF.COM (src/bridge.py, line 605). -/
def select_com_cmd : List Nat := [0x00, 0xA4, 0x02, 0x0C, 0x02, 0x01, 0x1E]

/-- READ BINARY of the EF.COM header (src/bridge.py, line 608). -/
def read_com_cmd : List Nat := [0x00, 0xB0, 0x00, 0x00, 0x04]

/-- SELECT DG1 (src/bridge.py, line 613). -/
def select_dg1_cmd : List Nat := [0x00, 0xA4, 0x02, 0x0C, 0x02, 0x01, 0x01]

/-- READ BINARY of DG1 (src/bridge.py, line 618). -/
def read_dg1_cmd : List Nat := [0x00, 0xB0, 0x00, 0x00, 0x00]

/-- SELECT DG11 (src/bridge.py, line 640). -/
def select_dg11_cmd : List Nat := [0x00, 0xA4, 0x02, 0x0C, 0x02, 0x01, 0x0B]

/-- Index of the first occurrence of the byte pair 5F 1F, as
bytes.find in src/bridge.py line 625. -/
def find_5f1f_go : Nat → List Nat → Option Nat
  | _, [] => none
  | _, [_] => none
  | i, a :: b :: rest =>
    if a = 0x5F ∧ b = 0x1F then some i else find_5f1f_go (i + 1) (b :: rest)

/-- The MRZ extraction of src/bridge.py lines 624-631: locate tag 5F1F,
read the length byte after it and slice; an out-of-range length-byte
access raises and is swallowed, leaving no MRZ. -/
def extract_mrz (raw : List Nat) : Option (List Nat) :=
  match find_5f1f_go 0 raw with
  | none => none
  | some i =>
    if i + 2 < raw.length then
      some ((raw.drop (i + 3)).take (raw.getD (i + 2) 0))
    else none

/-- The card_data fields written and the APDUs transmitted by the part
of NFCBridge.read_cccd_card that follows the EXTERNAL AUTHENTICATE
retries (src/bridge.py, lines 578-646). -/
structure CCCDOut where
  authenticated : Bool
  auth_error : Option (Nat × Nat)
  mac_warn : Bool
  session_established : Bool
  ef_com_header : Option (List Nat)
  dg1_selected : Bool
  dg1_raw : Option (List Nat)
  mrz : Option (List Nat)
  dg1_note : Bool
  dg11_available : Bool
  issued : List (List Nat)

/-- NFCBridge.read_cccd_card, lines 578-646 of src/bridge.py: given the
final EXTERNAL AUTHENTICATE response, fail with the status word when SW1
is not 0x90; otherwise verify the Retail MAC over E_IC (recording only a
warning on mismatch), derive the session keys, and go on to select and
read EF.COM, DG1 and DG11 through the card oracle. -/
def read_cccd_post_auth (desE desD : List Nat → List Nat → List Nat)
    (sha1 : List Nat → List Nat) (card : Card)
    (k_enc k_mac k_ifd : List Nat) (resp : List Nat × Nat × Nat) : CCCDOut :=
  let rdata := resp.1
  let sw1 := resp.2.1
  let sw2 := resp.2.2
  if sw1 ≠ 0x90 then
    ⟨false, some (sw1, sw2), false, false, none, false, none, none, false,
      false, []⟩
  else
    let e_ic := rdata.take 32
    let m_ic := (rdata.drop 32).take 8
    let computed_mac := retail_mac desE desD k_mac e_ic
    let mac_warn := if computed_mac = m_ic then false else true
    let decrypted := decrypt_data desE desD k_enc e_ic
    let k_ic := (decrypted.drop 16).take 16
    let key_seed := listXor k_ifd k_ic
    let _ks_enc := compute_key sha1 key_seed "ENC"
    let _ks_mac := compute_key sha1 key_seed "MAC"
    let r1 := card select_com_cmd
    let com : Option (List Nat) × List (List Nat) :=
      if r1.2.1 = 0x90 ∨ r1.2.1 = 0x61 then
        let r2 := card read_com_cmd
        (if r2.2.1 = 0x90 then some r2.1 else none, [read_com_cmd])
      else (none, [])
    let r3 := card select_dg1_cmd
    let dg1 : Bool × Option (List Nat) × Option (List Nat) × Bool × List (List Nat) :=
      if r3.2.1 = 0x90 ∨ r3.2.1 = 0x61 then
        let r4 := card read_dg1_cmd
        if r4.2.1 = 0x90 then
          (true, some r4.1, extract_mrz r4.1, false, [read_dg1_cmd])
        else if r4.2.1 = 0x6C then
          let retry_cmd : List Nat := [0x00, 0xB0, 0x00, 0x00, r4.2.2]
          let r5 := card retry_cmd
          (true, if r5.2.1 = 0x90 then some r5.1 else none, none, false,
            [read_dg1_cmd, retry_cmd])
        else if r4.2.1 = 0x69 ∧ r4.2.2 = 0x88 then
          (true, none, none, true, [read_dg1_cmd])
        else (true, none, none, false, [read_dg1_cmd])
      else (false, none, none, false, [])
    let r6 := card select_dg11_cmd
    let dg11 := if r6.2.1 = 0x90 then true else false
    ⟨true, none, mac_warn, true, com.1, dg1.1, dg1.2.1, dg1.2.2.1,
      dg1.2.2.2.1, dg11,
      select_com_cmd :: com.2 ++ select_dg1_cmd :: dg1.2.2.2.2 ++
        [select_dg11_cmd]⟩

end NFC

namespace NFC

/-- A sha1 stand-in for concrete evaluations: 20 zero bytes. -/
def zeroSha : List Nat → List Nat := fun _ => List.replicate 20 0

/-- A card that answers every APDU with empty data and SW 0x9000. -/
def nullCard : Card := fun _ => ([], 0x90, 0x00)

/-- Concrete card for the C7 counterexample: answers GET CHALLENGE with
eight zero bytes and SW 0x9000, and every other command with a valid
40-byte mutual-authentication response carrying SW 0x9047. -/
def cexCardC7 : Card := fun cmd =>
  if cmd = get_challenge_cmd then (List.replicate 8 0, 0x90, 0x00)
  else (List.replicate 32 0 ++ (0x80 :: List.replicate 7 0), 0x90, 0x47)

/-- Concrete card for the C7 witness: as cexCardC7 but with SW2 0x00 on
the mutual-authentication response. -/
def wCardC7 : Card := fun cmd =>
  if cmd = get_challenge_cmd then (List.replicate 8 0, 0x90, 0x00)
  else (List.replicate 32 0 ++ (0x80 :: List.replicate 7 0), 0x90, 0x00)

/-- Concrete card for the C8 witness: answers VERIFY with SW 0x63C5
(5 tries remaining). -/
def wCardC8 : Card := fun _ => ([], 0x63, 0xC5)

/-- Concrete card for the C9 witness: always returns a well-formed
secure-messaging response whose ciphertext decrypts (under the identity
block cipher) to the single byte 0x01. -/
def wCardC9 : Card := fun _ =>
  ([0x86, 0x09, 0x01, 0x01, 0x80, 0x00, 0x00, 0x00, 0x00, 0x00, 0x00],
    0x90, 0x00)

/-- The hypothesis of claim C9, modelled from its words: a card whose
every secure-messaging read response carries SW1 0x90 and whose wrapped
ciphertext decrypts and unpads to a chunk of exactly the requested
length. -/
def full_chunk_card (desE desD : List Nat → List Nat → List Nat)
    (ks : List Nat) (card : Card) (ef_id max_length : Nat) : Prop :=
  ∀ offset, offset < max_length →
    (card (sm_read_cmd ef_id offset (min 256 (max_length - offset)))).2.1 = 0x90 ∧
    sm_parse (card (sm_read_cmd ef_id offset (min 256 (max_length - offset)))).1 ≠ none ∧
    (unpad_data (tdes_decrypt desE desD ks
      ((sm_parse (card (sm_read_cmd ef_id offset
        (min 256 (max_length - offset)))).1).getD []))).length =
      min 256 (max_length - offset)

/-- Concrete cache trace for claim C3 (value type Nat): capacity 2;
insert key a at time 0, insert key b at time 1, get key a at time 2
(TTL 100 keeps it fresh, and the hit moves a to the end of the order),
then insert key c at time 3. -/
def cexCacheC3 : List (List Char × Nat × Nat) :=
  cache_set 2 3
    (cache_get 100 2
      (cache_set 2 1 (cache_set 2 0 [] ['a'] [] 10) ['b'] [] 20)
      ['a'] []).2
    ['c'] [] 30

/-- The card response to the MUTUAL AUTHENTICATE command that
mutual_authenticate builds from the challenge it just obtained. -/
def ma_response (desE desD : List Nat → List Nat → List Nat)
    (sha1 : List Nat → List Nat) (card : Card)
    (card_number rnd_ifd k_ifd : List Nat) : List Nat × Nat × Nat :=
  card (ma_cmd desE desD sha1 card_number (card get_challenge_cmd).1
    rnd_ifd k_ifd)

/-- The success condition of the Zairyu mutual authentication, for the
amended claim C7: SW1 of the response is 0x90, the response is exactly
40 bytes, the Retail MAC over E_ICC equals M_ICC, and the decryption of
E_ICC starts with RND.ICC followed by RND.IFD. -/
def ma_success (desE desD : List Nat → List Nat → List Nat)
    (sha1 : List Nat → List Nat) (card : Card)
    (card_number rnd_ifd k_ifd : List Nat) : Prop :=
  let k := (sha1 card_number).take 16
  let r := ma_response desE desD sha1 card card_number rnd_ifd k_ifd
  let e_icc := r.1.take 32
  let dec := tdes_decrypt desE desD k e_icc
  r.2.1 = 0x90 ∧ r.1.length = 40 ∧
  retail_mac desE desD k e_icc = (r.1.drop 32).take 8 ∧
  dec.take 8 = (card get_challenge_cmd).1 ∧
  (dec.drop 8).take 8 = rnd_ifd

instance maSuccessDecidable (desE desD : List Nat → List Nat → List Nat)
    (sha1 : List Nat → List Nat) (card : Card)
    (card_number rnd_ifd k_ifd : List Nat) :
    Decidable (ma_success desE desD sha1 card card_number rnd_ifd k_ifd) := by
  unfold ma_success
  exact inferInstance

/-- The session key mutual_authenticate installs on success: the
parity-adjusted hash of K.IFD xor K.ICC. -/
def ma_session_key (desE desD : List Nat → List Nat → List Nat)
    (sha1 : List Nat → List Nat) (card : Card)
    (card_number rnd_ifd k_ifd : List Nat) : List Nat :=
  let k := (sha1 card_number).take 16
  let r := ma_response desE desD sha1 card card_number rnd_ifd k_ifd
  let dec := tdes_decrypt desE desD k (r.1.take 32)
  compute_session_key sha1 (listXor k_ifd ((dec.drop 16).take 16))

end NFC

namespace NFC

theorem listXor_length (a b : List Nat) :
    (listXor a b).length = min a.length b.length := by
  simp [listXor]

theorem listXor_cancel (a p : List Nat) (h : a.length = p.length) :
    listXor (listXor a p) p = a := by
  induction a generalizing p with
  | nil => cases p <;> simp [listXor]
  | cons x xs ih =>
    cases p with
    | nil => simp at h
    | cons y ys =>
      simp only [listXor, List.zipWith_cons_cons]
      rw [Nat.xor_cancel_right]
      have h2 : xs.length = ys.length := by simp at h; exact h
      exact congrArg (x :: ·) (ih ys h2)

theorem pad_data_length_eq (data : List Nat) :
    (pad_data data).length =
      data.length + 1 + (8 - (data.length + 1) % 8) % 8 := by
  simp [pad_data]
  omega

theorem pad_data_length_mod (data : List Nat) :
    (pad_data data).length % 8 = 0 := by
  rw [pad_data_length_eq]
  omega

theorem pad_data_length_pos (data : List Nat) : 0 < (pad_data data).length := by
  rw [pad_data_length_eq]
  omega

theorem dropWhile_zero_replicate (m : Nat) (l : List Nat) :
    (List.replicate m 0 ++ l).dropWhile (fun b => decide (b = 0)) =
      l.dropWhile (fun b => decide (b = 0)) := by
  induction m with
  | zero => simp
  | succ n ih => simp [List.replicate_succ, ih]

theorem unpad_pad (data : List Nat) : unpad_data (pad_data data) = data := by
  have h1 : pad_data data =
      (data ++ [0x80]) ++
        List.replicate ((8 - (data.length + 1) % 8) % 8) 0 := by
    simp [pad_data]
  have h2 : (pad_data data).reverse.dropWhile (fun b => decide (b = 0)) =
      0x80 :: data.reverse := by
    rw [h1, List.reverse_append, List.reverse_replicate,
      dropWhile_zero_replicate]
    simp [List.dropWhile]
  rw [unpad_data, h2]
  simp

end NFC

namespace NFC

theorem toBlocksGo_eq_of_le :
    ∀ (n m : Nat) (data : List Nat), data.length ≤ n → data.length ≤ m →
      toBlocksGo n data = toBlocksGo m data := by
  intro n
  induction n with
  | zero =>
    intro m data hn _
    have hdata : data = [] := List.eq_nil_of_length_eq_zero (Nat.le_zero.mp hn)
    subst hdata
    cases m <;> simp [toBlocksGo]
  | succ n ih =>
    intro m data hn hm
    cases m with
    | zero =>
      have hdata : data = [] := List.eq_nil_of_length_eq_zero (Nat.le_zero.mp hm)
      subst hdata
      simp [toBlocksGo]
    | succ m =>
      cases data with
      | nil => simp [toBlocksGo]
      | cons x xs =>
        simp only [toBlocksGo, List.isEmpty_cons, Bool.false_eq_true,
          if_false]
        have h8 : ((x :: xs).drop 8).length ≤ n := by
          simp only [List.length_drop, List.length_cons]
          simp only [List.length_cons] at hn
          omega
        have h8m : ((x :: xs).drop 8).length ≤ m := by
          simp only [List.length_drop, List.length_cons]
          simp only [List.length_cons] at hm
          omega
        rw [ih m ((x :: xs).drop 8) h8 h8m]

theorem toBlocks_cons8 (c r : List Nat) (hc : c.length = 8) :
    toBlocks (c ++ r) = c :: toBlocks r := by
  have hlen : (c ++ r).length = 7 + r.length + 1 := by simp [hc]; omega
  have hne : (c ++ r).isEmpty = false := by
    cases c with
    | nil => simp at hc
    | cons a c2 => simp
  have ht : (c ++ r).take 8 = c := by rw [← hc]; exact List.take_left c r
  have hd : (c ++ r).drop 8 = r := by rw [← hc]; exact List.drop_left c r
  unfold toBlocks
  rw [hlen]
  simp only [toBlocksGo, hne, Bool.false_eq_true, if_false, ht, hd]
  rw [toBlocksGo_eq_of_le (7 + r.length) r.length r (by omega) (le_refl _)]

theorem toBlocks_flatten (cs : List (List Nat)) (h : ∀ c ∈ cs, c.length = 8) :
    toBlocks cs.flatten = cs := by
  induction cs with
  | nil => rfl
  | cons c cs ih =>
    rw [List.flatten_cons, toBlocks_cons8 c cs.flatten (h c (by simp))]
    rw [ih (fun b hb => h b (by simp [hb]))]

theorem flatten_toBlocksGo :
    ∀ (n : Nat) (data : List Nat), data.length ≤ n →
      (toBlocksGo n data).flatten = data := by
  intro n
  induction n with
  | zero =>
    intro data hn
    have hdata : data = [] := List.eq_nil_of_length_eq_zero (Nat.le_zero.mp hn)
    subst hdata
    rfl
  | succ n ih =>
    intro data hn
    cases data with
    | nil => rfl
    | cons x xs =>
      simp only [toBlocksGo, List.isEmpty_cons, Bool.false_eq_true, if_false,
        List.flatten_cons]
      have hle : ((x :: xs).drop 8).length ≤ n := by
        simp only [List.length_drop, List.length_cons]
        simp only [List.length_cons] at hn
        omega
      rw [ih ((x :: xs).drop 8) hle]
      exact List.take_append_drop 8 (x :: xs)

theorem flatten_toBlocks (data : List Nat) : (toBlocks data).flatten = data :=
  flatten_toBlocksGo data.length data (le_refl _)

theorem toBlocksGo_all8 :
    ∀ (n : Nat) (data : List Nat), data.length ≤ n → data.length % 8 = 0 →
      ∀ b ∈ toBlocksGo n data, b.length = 8 := by
  intro n
  induction n with
  | zero =>
    intro data hn _ b hb
    have hdata : data = [] := List.eq_nil_of_length_eq_zero (Nat.le_zero.mp hn)
    subst hdata
    simp [toBlocksGo] at hb
  | succ n ih =>
    intro data hn hmod b hb
    cases data with
    | nil => simp [toBlocksGo] at hb
    | cons x xs =>
      simp only [toBlocksGo, List.isEmpty_cons, Bool.false_eq_true, if_false,
        List.mem_cons] at hb
      have hlen8 : 8 ≤ (x :: xs).length := by
        simp only [List.length_cons] at hmod ⊢
        omega
      rcases hb with hb | hb
      · subst hb
        simp only [List.length_take]
        omega
      · refine ih ((x :: xs).drop 8) ?_ ?_ b hb
        · simp only [List.length_drop, List.length_cons]
          simp only [List.length_cons] at hn
          omega
        · simp only [List.length_drop]
          omega

theorem toBlocks_all8 (data : List Nat) (h : data.length % 8 = 0) :
    ∀ b ∈ toBlocks data, b.length = 8 :=
  toBlocksGo_all8 data.length data (le_refl _) h

theorem cbc_encrypt_blocks_all8 (e : List Nat → List Nat)
    (he : ∀ b, b.length = 8 → (e b).length = 8) :
    ∀ (bs : List (List Nat)) (prev : List Nat), prev.length = 8 →
      (∀ b ∈ bs, b.length = 8) →
      ∀ c ∈ cbc_encrypt_blocks e prev bs, c.length = 8 := by
  intro bs
  induction bs with
  | nil => intro prev _ _ c hc; simp [cbc_encrypt_blocks] at hc
  | cons b bs ih =>
    intro prev hprev hbs c hc
    simp only [cbc_encrypt_blocks, List.mem_cons] at hc
    have hxl : (listXor b prev).length = 8 := by
      rw [listXor_length, hprev, hbs b (by simp)]
      simp
    rcases hc with hc | hc
    · subst hc; exact he _ hxl
    · exact ih (e (listXor b prev)) (he _ hxl)
        (fun x hx => hbs x (by simp [hx])) c hc

theorem cbc_decrypt_blocks_all8 (d : List Nat → List Nat)
    (hd : ∀ b, b.length = 8 → (d b).length = 8) :
    ∀ (cs : List (List Nat)) (prev : List Nat), prev.length = 8 →
      (∀ c ∈ cs, c.length = 8) →
      ∀ p ∈ cbc_decrypt_blocks d prev cs, p.length = 8 := by
  intro cs
  induction cs with
  | nil => intro prev _ _ p hp; simp [cbc_decrypt_blocks] at hp
  | cons c cs ih =>
    intro prev hprev hcs p hp
    simp only [cbc_decrypt_blocks, List.mem_cons] at hp
    rcases hp with hp | hp
    · subst hp
      rw [listXor_length, hd c (hcs c (by simp)), hprev]
      simp
    · exact ih c (hcs c (by simp)) (fun x hx => hcs x (by simp [hx])) p hp

theorem cbc_decrypt_blocks_count (d : List Nat → List Nat) :
    ∀ (cs : List (List Nat)) (prev : List Nat),
      (cbc_decrypt_blocks d prev cs).length = cs.length := by
  intro cs
  induction cs with
  | nil => intro prev; rfl
  | cons c cs ih => intro prev; simp [cbc_decrypt_blocks, ih]

theorem cbc_decrypt_encrypt (e d : List Nat → List Nat)
    (he : ∀ b, b.length = 8 → (e b).length = 8)
    (hde : ∀ x, x.length = 8 → d (e x) = x) :
    ∀ (bs : List (List Nat)) (prev : List Nat), prev.length = 8 →
      (∀ b ∈ bs, b.length = 8) →
      cbc_decrypt_blocks d prev (cbc_encrypt_blocks e prev bs) = bs := by
  intro bs
  induction bs with
  | nil => intro prev _ _; rfl
  | cons b bs ih =>
    intro prev hprev hbs
    have hb8 : b.length = 8 := hbs b (by simp)
    have hxl : (listXor b prev).length = 8 := by
      rw [listXor_length, hprev, hb8]; simp
    simp only [cbc_encrypt_blocks, cbc_decrypt_blocks]
    rw [hde _ hxl]
    rw [listXor_cancel b prev (by rw [hprev, hb8])]
    rw [ih (e (listXor b prev)) (he _ hxl) (fun x hx => hbs x (by simp [hx]))]

theorem flatten_all8_length (l : List (List Nat))
    (h : ∀ b ∈ l, b.length = 8) : l.flatten.length = 8 * l.length := by
  induction l with
  | nil => rfl
  | cons b bs ih =>
    simp only [List.flatten_cons, List.length_append, List.length_cons]
    rw [h b (by simp), ih (fun x hx => h x (by simp [hx]))]
    omega

theorem ede_enc_length {desE desD : List Nat → List Nat → List Nat}
    (hg : GoodDes desE desD) (k1 k2 b : List Nat) (hb : b.length = 8) :
    (tdes_ede_block desE desD k1 k2 true b).length = 8 := by
  simp only [tdes_ede_block, if_pos]
  exact (hg k1 _ ((hg k2 _ ((hg k1 b hb).1)).2.1)).1

theorem ede_dec_length {desE desD : List Nat → List Nat → List Nat}
    (hg : GoodDes desE desD) (k1 k2 b : List Nat) (hb : b.length = 8) :
    (tdes_ede_block desE desD k1 k2 false b).length = 8 := by
  simp only [tdes_ede_block, Bool.false_eq_true, if_false]
  exact (hg k1 _ ((hg k2 _ ((hg k1 b hb).2.1)).1)).2.1

theorem ede_dec_enc {desE desD : List Nat → List Nat → List Nat}
    (hg : GoodDes desE desD) (k1 k2 b : List Nat) (hb : b.length = 8) :
    tdes_ede_block desE desD k1 k2 false (tdes_ede_block desE desD k1 k2 true b) = b := by
  simp only [tdes_ede_block, if_pos, Bool.false_eq_true, if_false]
  have h1 : (desE k1 b).length = 8 := (hg k1 b hb).1
  have h2 : (desD k2 (desE k1 b)).length = 8 := (hg k2 _ h1).2.1
  rw [(hg k1 _ h2).2.2.1, (hg k2 _ h1).2.2.2, (hg k1 b hb).2.2.1]

theorem tdes_decrypt_encrypt {desE desD : List Nat → List Nat → List Nat}
    (hg : GoodDes desE desD) (key data : List Nat)
    (hlen : data.length % 8 = 0) :
    tdes_decrypt desE desD key (tdes_encrypt desE desD key data) = data := by
  have hbs := toBlocks_all8 data hlen
  have hiv : (List.replicate 8 (0 : Nat)).length = 8 := by simp
  show (cbc_decrypt_blocks
      (tdes_ede_block desE desD (key.take 8) ((key.drop 8).take 8) false)
      (List.replicate 8 0)
      (toBlocks ((cbc_encrypt_blocks
        (tdes_ede_block desE desD (key.take 8) ((key.drop 8).take 8) true)
        (List.replicate 8 0) (toBlocks data)).flatten))).flatten = data
  have hE : ∀ b, b.length = 8 →
      ((fun x => tdes_ede_block desE desD (key.take 8) ((key.drop 8).take 8) true x) b).length = 8 :=
    fun b hb => ede_enc_length hg (key.take 8) ((key.drop 8).take 8) b hb
  have henc8 := cbc_encrypt_blocks_all8 _ hE
    (toBlocks data) (List.replicate 8 0) hiv hbs
  rw [toBlocks_flatten _ henc8]
  rw [cbc_decrypt_encrypt
    (tdes_ede_block desE desD (key.take 8) ((key.drop 8).take 8) true)
    (tdes_ede_block desE desD (key.take 8) ((key.drop 8).take 8) false)
    (fun b hb => ede_enc_length hg _ _ b hb)
    (fun x hx => ede_dec_enc hg _ _ x hx) (toBlocks data)
    (List.replicate 8 0) hiv hbs]
  exact flatten_toBlocks data

theorem tdes_decrypt_length {desE desD : List Nat → List Nat → List Nat}
    (hg : GoodDes desE desD) (key data : List Nat)
    (hlen : data.length % 8 = 0) :
    (tdes_decrypt desE desD key data).length = data.length := by
  show ((cbc_decrypt_blocks
      (tdes_ede_block desE desD (key.take 8) ((key.drop 8).take 8) false)
      (List.replicate 8 0) (toBlocks data)).flatten).length = data.length
  have hcs := toBlocks_all8 data hlen
  have hiv : (List.replicate 8 (0 : Nat)).length = 8 := by simp
  have hdall := cbc_decrypt_blocks_all8 _
    (fun b hb => ede_dec_length hg (key.take 8) ((key.drop 8).take 8) b hb)
    (toBlocks data) (List.replicate 8 0) hiv hcs
  rw [flatten_all8_length _ hdall, cbc_decrypt_blocks_count]
  have h2 := flatten_all8_length (toBlocks data) hcs
  rw [flatten_toBlocks] at h2
  omega

end NFC

namespace NFC

set_option maxRecDepth 8000 in
theorem adjust_parity_odd : ∀ b, b < 256 → popcount (adjust_parity b) % 2 = 1 := by
  decide

theorem or_c0_bits :
    ∀ x, x < 16 → (0xC0 ||| x) &&& 0xC0 = 0xC0 ∧ (0xC0 ||| x) &&& 0x0F = x := by
  decide

/-- C10: removing ISO 9797-1 method-2 padding after applying it is the
identity, for the BAC and the Zairyu implementations alike, even when
the input ends in 0x00 or 0x80 bytes; and the padded string always has
length a positive multiple of 8. -/
theorem c10_pad_unpad_roundtrip (X : List Nat) :
    unpad_data (pad_data X) = X ∧
    zairyu_unpad_data (zairyu_pad_data X) = X ∧
    (pad_data X).length % 8 = 0 ∧ 0 < (pad_data X).length ∧
    (zairyu_pad_data X).length % 8 = 0 ∧ 0 < (zairyu_pad_data X).length :=
  ⟨unpad_pad X, unpad_pad X, pad_data_length_mod X, pad_data_length_pos X,
    pad_data_length_mod X, pad_data_length_pos X⟩

/-- C4: for every 16-byte key and byte string X shorter than 32 bytes,
3DES-CBC decryption of the 3DES-CBC encryption of the padded input
round-trips to the padded input (encrypt_data pads its argument once
more internally and decrypt_data unpads, so the composite is the
identity on pad_data X). -/
theorem c4_bac_cbc_roundtrip (desE desD : List Nat → List Nat → List Nat)
    (hg : GoodDes desE desD) (key X : List Nat) ( _hX : X.length < 32) :
    decrypt_data desE desD key (encrypt_data desE desD key (pad_data X)) =
      pad_data X := by
  unfold decrypt_data encrypt_data
  rw [tdes_decrypt_encrypt hg key (pad_data (pad_data X)) (pad_data_length_mod _)]
  exact unpad_pad (pad_data X)

/-- Witness for C4 at the identity block cipher, a zero key and
X = 1, 2, 3. -/
theorem c4_bac_cbc_roundtrip_witness :
    decrypt_data idCipher idCipher (List.replicate 16 0)
      (encrypt_data idCipher idCipher (List.replicate 16 0) (pad_data [1, 2, 3])) =
      pad_data [1, 2, 3] :=
  c4_bac_cbc_roundtrip idCipher idCipher (fun _ _ h => ⟨h, h, rfl, rfl⟩)
    (List.replicate 16 0) [1, 2, 3] (by decide)

/-- C5: the derived DES key is the first 16 bytes of SHA-1 of the seed
followed by the counter (00000001 for ENC, 00000002 for MAC), with the
low bit of each byte flipped exactly when that byte has even popcount;
consequently every byte of the output has odd popcount.  The Zairyu
session-key derivation is the ENC variant of the BAC derivation and
satisfies the same parity property. -/
theorem c5_key_derivation_parity (sha1 : List Nat → List Nat)
    (hb : ∀ x, ∀ b ∈ sha1 x, b < 256) (seed : List Nat) (kt : String)
    (mat : List Nat) :
    compute_key sha1 seed kt =
      ((sha1 (seed ++ key_counter kt)).take 16).map adjust_parity ∧
    (∀ b ∈ compute_key sha1 seed kt, popcount b % 2 = 1) ∧
    compute_session_key sha1 mat = compute_key sha1 mat "ENC" ∧
    (∀ b ∈ compute_session_key sha1 mat, popcount b % 2 = 1) := by
  refine ⟨rfl, ?_, ?_, ?_⟩
  · intro b hbm
    simp only [compute_key, List.mem_map] at hbm
    obtain ⟨a, ha, rfl⟩ := hbm
    exact adjust_parity_odd a (hb _ a (List.mem_of_mem_take ha))
  · unfold compute_key compute_session_key key_counter
    rw [if_pos rfl]
  · intro b hbm
    simp only [compute_session_key, List.mem_map] at hbm
    obtain ⟨a, ha, rfl⟩ := hbm
    exact adjust_parity_odd a (hb _ a (List.mem_of_mem_take ha))

/-- Witness for C5: the first byte of the key derived from the zero
hash has odd popcount. -/
theorem c5_key_derivation_parity_witness :
    popcount ((compute_key zeroSha (List.replicate 16 0) "ENC").headD 0) % 2 = 1 := by
  have h := c5_key_derivation_parity zeroSha
    (fun x b hbm => by simp [zeroSha] at hbm; omega)
    (List.replicate 16 0) "ENC" (List.replicate 16 0)
  exact h.2.1 _ (by decide)

/-- C2 (code bug): the source values the filler character at its table
index 36 instead of the ICAO 9303 value 0, so every input containing a
filler gets a non-ICAO check digit: on the single filler the code
produces 2 where ICAO specifies 0; on a fully padded document number
(nine fillers, as build_mrz_info produces for a short document number)
the code writes check digit 8 into the MRZ where ICAO specifies 0.  On
filler-free input the two agree. -/
theorem c2_check_digit_filler_bug :
    calculate_check_digit ['<'] = '2' ∧ icao_check_digit ['<'] = '0' ∧
    calculate_check_digit (List.replicate 9 '<') = '8' ∧
    icao_check_digit (List.replicate 9 '<') = '0' ∧
    (build_mrz_info [] "900101".toList "301231".toList).getD 9 ' ' = '8' ∧
    calculate_check_digit "012345678".toList =
      icao_check_digit "012345678".toList := by
  decide

/-- C8: verify_pin succeeds exactly when SW1 is 0x90; on SW 0x63Cx it
fails with the low nibble of SW2 as the remaining tries; on SW 0x6984
it fails with 0 tries (card locked). -/
theorem c8_verify_pin_status (card : Card) (pin : List Char) :
    ((verify_pin card pin).1 = true ↔ (card (verify_cmd pin)).2.1 = 0x90) ∧
    (∀ x, x < 16 → (card (verify_cmd pin)).2.1 = 0x63 →
      (card (verify_cmd pin)).2.2 = 0xC0 ||| x →
      verify_pin card pin = (false, Int.ofNat x)) ∧
    ((card (verify_cmd pin)).2.1 = 0x69 → (card (verify_cmd pin)).2.2 = 0x84 →
      verify_pin card pin = (false, 0)) := by
  refine ⟨?_, ?_, ?_⟩
  · unfold verify_pin
    by_cases h90 : (card (verify_cmd pin)).2.1 = 0x90
    · simp [h90]
    · rw [if_neg h90]
      constructor
      · intro hcontra
        exfalso
        revert hcontra
        split_ifs <;> simp
      · intro hcontra
        exact absurd hcontra h90
  · intro x hx h63 hc0
    unfold verify_pin
    rw [if_neg (by rw [h63]; decide)]
    rw [if_pos ⟨h63, by rw [hc0]; exact (or_c0_bits x hx).1⟩]
    rw [hc0, (or_c0_bits x hx).2]
  · intro h69 h84
    unfold verify_pin
    rw [if_neg (by rw [h69]; decide)]
    rw [if_neg (by rw [h69]; rintro ⟨hcontra, -⟩; revert hcontra; decide)]
    rw [if_pos ⟨h69, h84⟩]

/-- Witness for C8 on a card answering SW 0x63C5: failure with 5 tries
remaining. -/
theorem c8_verify_pin_status_witness :
    verify_pin wCardC8 ['1', '2', '3', '4'] = (false, Int.ofNat 5) :=
  (c8_verify_pin_status wCardC8 ['1', '2', '3', '4']).2.1 5 (by decide)
    (by decide) (by decide)

/-- C6: a secure-messaging read attempted while the session key is
unset or the authenticated flag is false fails fast with the typed
absent outcome and transmits no APDU to the card. -/
theorem c6_sm_read_requires_auth (desE desD : List Nat → List Nat → List Nat)
    (ks_enc : Option (List Nat)) (authenticated : Bool) (card : Card)
    (ef_id max_length : Nat) (h : ks_enc = none ∨ authenticated = false) :
    read_binary_sm desE desD ks_enc authenticated card ef_id max_length =
      some ⟨none, [], 0⟩ := by
  unfold read_binary_sm
  rcases h with h | h
  · subst h; simp
  · subst h; simp

/-- Witness for C6 with an unset session key. -/
theorem c6_sm_read_requires_auth_witness :
    read_binary_sm idCipher idCipher none true nullCard 1 8 =
      some ⟨none, [], 0⟩ :=
  c6_sm_read_requires_auth idCipher idCipher none true nullCard 1 8 (Or.inl rfl)

end NFC

namespace NFC

theorem evict_oldest_full {V : Type} (max_size : Nat)
    (c : List (List Char × Nat × V)) (h : c.length = max_size)
    (hp : 0 < max_size) :
    evict_oldest max_size (c.length + 1) c = c.tail := by
  obtain ⟨m, rfl⟩ : ∃ m, max_size = m + 1 := ⟨max_size - 1, by omega⟩
  rw [h]
  have h1 : m + 1 ≤ c.length := by omega
  have h2 : ¬(m + 1 ≤ c.tail.length) := by
    simp only [List.length_tail]
    omega
  simp only [evict_oldest, if_pos h1, if_neg h2]

/-- C3 (amended): eviction at capacity removes exactly the entry at the
front of the access order (the least recently used; this is the
earliest-inserted entry only when no get has refreshed an older one)
and appends the new entry at the end; a get of an entry older than the
TTL returns absent and deletes it, and whenever get returns a value the
found entry was within the TTL. -/
theorem c3_cache_eviction_and_ttl (V : Type) (max_size now ttl ts : Nat)
    (c : List (List Char × Nat × V)) (cn ihash : List Char) (v w : V) :
    (c.length = max_size → 0 < max_size →
      (∀ e ∈ c, e.1 ≠ make_key cn ihash) →
      cache_set max_size now c cn ihash v =
        c.tail ++ [(make_key cn ihash, now, v)]) ∧
    (c.find? (fun e => decide (e.1 = make_key cn ihash)) =
        some (make_key cn ihash, ts, w) →
      ttl < now - ts →
      cache_get ttl now c cn ihash =
        (none, c.filter (fun x => decide (x.1 ≠ make_key cn ihash)))) ∧
    (∀ res, cache_get ttl now c cn ihash = (some w, res) →
      ∃ e, c.find? (fun x => decide (x.1 = make_key cn ihash)) = some e ∧
        now - e.2.1 ≤ ttl ∧ e.2.2 = w) := by
  refine ⟨?_, ?_, ?_⟩
  · intro h1 h2 h3
    unfold cache_set
    rw [evict_oldest_full max_size c h1 h2]
    rw [if_neg ?hne]
    case hne =>
      simp only [List.any_eq_true, decide_eq_true_eq, not_exists, not_and]
      intro e he
      exact h3 e (List.mem_of_mem_tail he)
  · intro hf hexp
    unfold cache_get
    simp only [hf]
    rw [if_pos hexp]
  · intro res hres
    unfold cache_get at hres
    cases hf : c.find? (fun x => decide (x.1 = make_key cn ihash)) with
    | none =>
      simp only [hf, Prod.mk.injEq] at hres
      exact absurd hres.1 (by simp)
    | some e =>
      simp only [hf] at hres
      by_cases hexp : ttl < now - e.2.1
      · rw [if_pos hexp] at hres
        simp only [Prod.mk.injEq] at hres
        exact absurd hres.1 (by simp)
      · rw [if_neg hexp] at hres
        simp only [Prod.mk.injEq] at hres
        exact ⟨e, rfl, by omega, Option.some.inj hres.1⟩

/-- Witness for C3: inserting a fresh key into a full cache of capacity
2 drops the front entry and appends the new one. -/
theorem c3_cache_eviction_and_ttl_witness :
    cache_set 2 5 [(['a'], 0, (1 : Nat)), (['b'], 1, 2)] ['c'] [] 3 =
      [(['a'], 0, (1 : Nat)), (['b'], 1, 2)].tail ++ [(make_key ['c'] [], 5, 3)] :=
  (c3_cache_eviction_and_ttl Nat 2 5 0 0 [(['a'], 0, 1), (['b'], 1, 2)]
    ['c'] [] 3 0).1 rfl (by decide) (by decide)

/-- Counterexample to C3 as stated: after inserting a at time 0 and b at
time 1 into a cache of capacity 2 and then getting a (which moves it to
the end of the order), inserting c evicts b, not the earliest-inserted
entry a, which is still present. -/
theorem c3_cache_eviction_and_ttl_counterexample :
    (['a'], 0, (10 : Nat)) ∈ cexCacheC3 ∧ (['b'], 1, (20 : Nat)) ∉ cexCacheC3 := by
  decide

end NFC

namespace NFC

theorem sm_go_some (desE desD : List Nat → List Nat → List Nat)
    (ks : List Nat) (card : Card) (ef_id max_length : Nat) :
    ∀ (fuel offset : Nat) (acc : List Nat) (issued : List (List Nat)) (n : Nat),
      max_length - offset < fuel →
      (read_binary_sm_go desE desD ks card ef_id max_length fuel offset acc
        issued n).isSome = true := by
  intro fuel
  induction fuel with
  | zero => intro offset acc issued n h; omega
  | succ fuel ih =>
    intro offset acc issued n h
    simp only [read_binary_sm_go]
    split
    next ho =>
      split
      next => split <;> rfl
      next hsw =>
        split
        next => rfl
        next enc hparse =>
          split
          next => rfl
          next hlt =>
            apply ih
            omega
    next ho => rfl

theorem sm_go_iters (desE desD : List Nat → List Nat → List Nat)
    (ks : List Nat) (card : Card) (ef_id max_length : Nat)
    (hfc : full_chunk_card desE desD ks card ef_id max_length) :
    ∀ (fuel offset : Nat) (acc : List Nat) (issued : List (List Nat)) (n : Nat),
      max_length - offset < fuel →
      ∃ out, read_binary_sm_go desE desD ks card ef_id max_length fuel offset
          acc issued n = some out ∧
        out.iters ≤ n + (max_length - offset + 255) / 256 := by
  intro fuel
  induction fuel with
  | zero => intro offset acc issued n h; omega
  | succ fuel ih =>
    intro offset acc issued n h
    by_cases ho : offset < max_length
    · obtain ⟨hsw, hparse, hlen⟩ := hfc offset ho
      simp only [read_binary_sm_go, if_pos ho]
      rw [if_neg (fun hne => hne hsw)]
      cases hp : sm_parse (card (sm_read_cmd ef_id offset
          (min 256 (max_length - offset)))).1 with
      | none => exact absurd hp hparse
      | some enc =>
        simp only [hp]
        have hD : (unpad_data (tdes_decrypt desE desD ks enc)).length =
            min 256 (max_length - offset) := by
          rw [hp] at hlen
          simpa using hlen
        rw [if_neg (by omega)]
        obtain ⟨out, hgo, hit⟩ := ih
          (offset + (unpad_data (tdes_decrypt desE desD ks enc)).length)
          (acc ++ unpad_data (tdes_decrypt desE desD ks enc))
          (issued ++ [sm_read_cmd ef_id offset (min 256 (max_length - offset))])
          (n + 1) (by omega)
        exact ⟨out, hgo, by omega⟩
    · simp only [read_binary_sm_go, if_neg ho]
      refine ⟨⟨sm_finish acc, issued, n⟩, rfl, ?_⟩
      show n ≤ n + (max_length - offset + 255) / 256
      omega

/-- C9: for every max_length and every card response function the
secure-messaging READ BINARY loop terminates (the loop with fuel
max_length + 1 always yields an outcome), and on a card whose every
response decrypts to a full-length chunk the number of iterations is at
most ceil(max_length / 256) + 1. -/
theorem c9_sm_read_terminates (desE desD : List Nat → List Nat → List Nat)
    (ks_enc : Option (List Nat)) (authenticated : Bool) (card : Card)
    (ef_id max_length : Nat) :
    (∃ out, read_binary_sm desE desD ks_enc authenticated card ef_id
      max_length = some out) ∧
    (full_chunk_card desE desD (ks_enc.getD []) card ef_id max_length →
      ∀ out, read_binary_sm desE desD ks_enc authenticated card ef_id
          max_length = some out →
        out.iters ≤ (max_length + 255) / 256 + 1) := by
  constructor
  · unfold read_binary_sm
    by_cases hguard : ((ks_enc.getD []).isEmpty || !authenticated) = true
    · rw [if_pos hguard]
      exact ⟨_, rfl⟩
    · rw [if_neg hguard]
      exact Option.isSome_iff_exists.mp
        (sm_go_some desE desD (ks_enc.getD []) card ef_id max_length
          (max_length + 1) 0 [] [] 0 (by omega))
  · intro hfc out hout
    unfold read_binary_sm at hout
    by_cases hguard : ((ks_enc.getD []).isEmpty || !authenticated) = true
    · rw [if_pos hguard] at hout
      have hout2 : (⟨none, [], 0⟩ : SMReadOut) = out := by injection hout
      rw [← hout2]
      exact Nat.zero_le _
    · rw [if_neg hguard] at hout
      obtain ⟨out2, hgo, hit⟩ := sm_go_iters desE desD (ks_enc.getD []) card
        ef_id max_length hfc (max_length + 1) 0 [] [] 0 (by omega)
      rw [hgo] at hout
      have hout2 : out2 = out := by injection hout
      rw [← hout2]
      omega

/-- Witness for C9 over a one-byte file on a card that always returns a
full-length chunk: exactly one loop iteration, within the bound. -/
theorem c9_sm_read_terminates_witness :
    (⟨some [1], [sm_read_cmd 1 0 1], 1⟩ : SMReadOut).iters ≤
      (1 + 255) / 256 + 1 :=
  (c9_sm_read_terminates idCipher idCipher (some [1]) true wCardC9 1 1).2
    (by unfold full_chunk_card; decide) ⟨some [1], [sm_read_cmd 1 0 1], 1⟩
    (by decide)

end NFC

namespace NFC

/-- C1 (corrected): in the CCCD BAC flow, a status with SW1 other than
0x90 on the final EXTERNAL AUTHENTICATE yields a failure record carrying
the raw status word with no further command transmitted; but when the
Retail MAC computed over the returned E_IC differs from M_IC the code
records only a mac_verify warning and still proceeds to select and read
the protected files EF.COM, DG1 and DG11. -/
theorem c1_cccd_mac_mismatch_proceeds
    (desE desD : List Nat → List Nat → List Nat) (sha1 : List Nat → List Nat)
    (card : Card) (k_enc k_mac k_ifd : List Nat)
    (resp : List Nat × Nat × Nat) :
    (resp.2.1 ≠ 0x90 →
      read_cccd_post_auth desE desD sha1 card k_enc k_mac k_ifd resp =
        ⟨false, some (resp.2.1, resp.2.2), false, false, none, false, none,
          none, false, false, []⟩) ∧
    (resp.2.1 = 0x90 →
      retail_mac desE desD k_mac (resp.1.take 32) ≠ (resp.1.drop 32).take 8 →
      (read_cccd_post_auth desE desD sha1 card k_enc k_mac k_ifd
        resp).mac_warn = true ∧
      select_com_cmd ∈
        (read_cccd_post_auth desE desD sha1 card k_enc k_mac k_ifd resp).issued ∧
      select_dg1_cmd ∈
        (read_cccd_post_auth desE desD sha1 card k_enc k_mac k_ifd resp).issued ∧
      select_dg11_cmd ∈
        (read_cccd_post_auth desE desD sha1 card k_enc k_mac k_ifd resp).issued) := by
  constructor
  · intro h
    simp only [read_cccd_post_auth]
    rw [if_pos h]
  · intro hsw hmac
    have hswne : ¬(resp.2.1 ≠ 0x90) := fun hne => hne hsw
    simp only [read_cccd_post_auth, if_neg hswne]
    refine ⟨?_, ?_, ?_, ?_⟩
    · rw [if_neg hmac]
    · simp
    · simp [List.mem_cons, List.mem_append]
    · simp [List.mem_cons, List.mem_append]

/-- Witness for C1 on a card that accepts every command: with a
mismatching MAC the flow still selects EF.COM, DG1 and DG11. -/
theorem c1_cccd_mac_mismatch_proceeds_witness :
    (read_cccd_post_auth idCipher idCipher zeroSha nullCard
      (List.replicate 16 1) (List.replicate 16 1) (List.replicate 16 0)
      (List.replicate 40 0, 0x90, 0)).mac_warn = true ∧
    select_com_cmd ∈ (read_cccd_post_auth idCipher idCipher zeroSha nullCard
      (List.replicate 16 1) (List.replicate 16 1) (List.replicate 16 0)
      (List.replicate 40 0, 0x90, 0)).issued ∧
    select_dg1_cmd ∈ (read_cccd_post_auth idCipher idCipher zeroSha nullCard
      (List.replicate 16 1) (List.replicate 16 1) (List.replicate 16 0)
      (List.replicate 40 0, 0x90, 0)).issued ∧
    select_dg11_cmd ∈ (read_cccd_post_auth idCipher idCipher zeroSha nullCard
      (List.replicate 16 1) (List.replicate 16 1) (List.replicate 16 0)
      (List.replicate 40 0, 0x90, 0)).issued :=
  (c1_cccd_mac_mismatch_proceeds idCipher idCipher zeroSha nullCard
    (List.replicate 16 1) (List.replicate 16 1) (List.replicate 16 0)
    (List.replicate 40 0, 0x90, 0)).2 rfl (by decide)

/-- Counterexample to C1 as stated: a concrete post-authentication run
in which the Retail MAC over E_IC differs from M_IC, yet the flow
reports no authentication failure (authenticated stays true) and the
protected-file command SELECT DG1 is still transmitted. -/
theorem c1_cccd_mac_mismatch_proceeds_counterexample :
    retail_mac idCipher idCipher (List.replicate 16 1)
      ((List.replicate 40 0).take 32) ≠ ((List.replicate 40 0).drop 32).take 8 ∧
    (read_cccd_post_auth idCipher idCipher zeroSha nullCard
      (List.replicate 16 1) (List.replicate 16 1) (List.replicate 16 0)
      (List.replicate 40 0, 0x90, 0)).authenticated = true ∧
    (read_cccd_post_auth idCipher idCipher zeroSha nullCard
      (List.replicate 16 1) (List.replicate 16 1) (List.replicate 16 0)
      (List.replicate 40 0, 0x90, 0)).auth_error = none ∧
    select_dg1_cmd ∈ (read_cccd_post_auth idCipher idCipher zeroSha nullCard
      (List.replicate 16 1) (List.replicate 16 1) (List.replicate 16 0)
      (List.replicate 40 0, 0x90, 0)).issued := by
  decide

end NFC

namespace NFC

/-- C7 (amended): when the GET CHALLENGE step succeeds, Zairyu mutual
authentication succeeds exactly when SW1 of the MUTUAL AUTHENTICATE
response is 0x90 (SW2 is not inspected), the response is exactly 40
bytes, the Retail MAC over E_ICC matches M_ICC and the decryption of
E_ICC restores RND.ICC followed by RND.IFD; on success the session key
is installed, on failure ks_enc is left unchanged. -/
theorem c7_mutual_authenticate_success_iff
    (desE desD : List Nat → List Nat → List Nat) (sha1 : List Nat → List Nat)
    (card : Card) (card_number rnd_ifd k_ifd : List Nat)
    (ks_old : Option (List Nat)) (hg : GoodDes desE desD)
    (hcard : card_number.length = 12)
    (hch1 : (card get_challenge_cmd).2.1 = 0x90)
    (hch2 : (card get_challenge_cmd).1.length = 8) :
    mutual_authenticate desE desD sha1 card card_number rnd_ifd k_ifd ks_old =
      some (if ma_success desE desD sha1 card card_number rnd_ifd k_ifd then
          (true, some (ma_session_key desE desD sha1 card card_number rnd_ifd
            k_ifd))
        else (false, ks_old)) := by
  have hkne : ¬(card_number.length ≠ 12) := fun hne => hne hcard
  have hchall : ¬¬((card get_challenge_cmd).2.1 = 0x90 ∧
      (card get_challenge_cmd).1.length = 8) := not_not_intro ⟨hch1, hch2⟩
  simp only [mutual_authenticate, ma_success, ma_response, ma_session_key]
  rw [if_neg hkne, if_neg hchall]
  by_cases hA : (card (ma_cmd desE desD sha1 card_number
      (card get_challenge_cmd).1 rnd_ifd k_ifd)).2.1 = 0x90
  · rw [if_neg (not_not_intro hA)]
    by_cases hB : (card (ma_cmd desE desD sha1 card_number
        (card get_challenge_cmd).1 rnd_ifd k_ifd)).1.length = 40
    · rw [if_neg (not_not_intro hB)]
      by_cases hC : retail_mac desE desD ((sha1 card_number).take 16)
          ((card (ma_cmd desE desD sha1 card_number
            (card get_challenge_cmd).1 rnd_ifd k_ifd)).1.take 32) =
          ((card (ma_cmd desE desD sha1 card_number
            (card get_challenge_cmd).1 rnd_ifd k_ifd)).1.drop 32).take 8
      · rw [if_neg (not_not_intro hC)]
        have hdl : (tdes_decrypt desE desD ((sha1 card_number).take 16)
            ((card (ma_cmd desE desD sha1 card_number
              (card get_challenge_cmd).1 rnd_ifd k_ifd)).1.take 32)).length =
            32 := by
          rw [tdes_decrypt_length hg]
          · simp only [List.length_take]
            omega
          · simp only [List.length_take]
            omega
        rw [if_neg (by omega : ¬(tdes_decrypt desE desD
            ((sha1 card_number).take 16)
            ((card (ma_cmd desE desD sha1 card_number
              (card get_challenge_cmd).1 rnd_ifd k_ifd)).1.take 32)).length ≠
            32)]
        by_cases hD : (tdes_decrypt desE desD ((sha1 card_number).take 16)
            ((card (ma_cmd desE desD sha1 card_number
              (card get_challenge_cmd).1 rnd_ifd k_ifd)).1.take 32)).take 8 =
            (card get_challenge_cmd).1
        · rw [if_neg (not_not_intro hD)]
          by_cases hE : ((tdes_decrypt desE desD ((sha1 card_number).take 16)
              ((card (ma_cmd desE desD sha1 card_number
                (card get_challenge_cmd).1 rnd_ifd k_ifd)).1.take 32)).drop
                8).take 8 = rnd_ifd
          · rw [if_neg (not_not_intro hE), if_pos ⟨hA, hB, hC, hD, hE⟩]
          · rw [if_pos hE, if_neg (fun hconj => hE hconj.2.2.2.2)]
        · rw [if_pos hD, if_neg (fun hconj => hD hconj.2.2.2.1)]
      · rw [if_pos hC, if_neg (fun hconj => hC hconj.2.2.1)]
    · rw [if_pos hB, if_neg (fun hconj => hB hconj.2.1)]
  · rw [if_pos hA, if_neg (fun hconj => hA hconj.1)]

/-- Witness for C7 on a card returning a valid 40-byte response with
SW 0x9000: authentication succeeds and installs the session key. -/
theorem c7_mutual_authenticate_success_iff_witness :
    mutual_authenticate idCipher idCipher zeroSha wCardC7
      (List.replicate 12 48) (List.replicate 8 0) (List.replicate 16 0)
      none = some (true, some (List.replicate 16 1)) := by
  rw [c7_mutual_authenticate_success_iff idCipher idCipher zeroSha wCardC7
    (List.replicate 12 48) (List.replicate 8 0) (List.replicate 16 0) none
    (fun _ _ h => ⟨h, h, rfl, rfl⟩) (by decide) (by decide) (by decide)]
  decide

/-- Counterexample to C7 as stated: a run in which every check passes
and authentication succeeds although the MUTUAL AUTHENTICATE response
status word is 0x9047, not 0x9000 (the code inspects only SW1). -/
theorem c7_mutual_authenticate_success_iff_counterexample :
    mutual_authenticate idCipher idCipher zeroSha cexCardC7
      (List.replicate 12 48) (List.replicate 8 0) (List.replicate 16 0)
      none = some (true, some (List.replicate 16 1)) ∧
    (cexCardC7 (ma_cmd idCipher idCipher zeroSha (List.replicate 12 48)
      (List.replicate 8 0) (List.replicate 8 0)
      (List.replicate 16 0))).2.2 = 0x47 := by
  decide

end NFC
